import Mathlib

/-!
# git-pull (`cmd/gp/main.go`): embedding and verification

The program lists the immediate sub-directories of a root, probes each one with
`git rev-parse --is-inside-work-tree`, starts one goroutine per repository that runs
`git status --porcelain` and, on a clean tree, `git pull --ff-only`, and prints one
table row per result received on an unbuffered channel.

## Modelling conventions

* Go `string` is `String`, `[]byte` is `List UInt8`, `int` and `RepositoryState` are `Int`
  (a superset of the 64-bit range, so a statement for all `Int` covers every value).
* Everything outside the process is a field of `Sys`: the arguments, the environment,
  the directory listing, the platform's `filepath.Join`, and `git`.  A subprocess is
  described by what `CombinedOutput` returns for it, as a function of the working
  directory and the command line; the program runs each command line at most once per
  directory, and every subprocess is taken to return.
* Effects are recorded as a list of `Event`s, in program order of the goroutine that
  performs them; `slog.Debug` records are part of it when the debug handler is installed.
* The channel is a pool holding, per started goroutine, the values it has still to
  send.  A receive takes the next value of one of the goroutines that are ready to
  send; which one is decided by a scheduler `sched`, over which every statement about
  `main` is quantified.  A receive that no goroutine can serve ends the run as `blocked`;
  this is shown not to happen.
* The functions `strconv.Atoi` and `bytes.TrimSpace` (with the parts of `unicode` and
  `unicode/utf8` it uses), `bytes.Equal` and the `%v` rendering of a byte slice belong to
  the Go standard library; they are written out here after the library, for a 64-bit
  `int`, loops over a slice being recursions over the list.
* The alignment `text/tabwriter` performs is not modelled: the report is the sequence of
  texts written into the tabwriter, followed by the flush.
-/

namespace Gp

/-! ## Go library: `strconv` -/

/-- The two sentinel errors a `*strconv.NumError` can wrap. -/
inductive NumErr where
  | ErrSyntax
  | ErrRange
  deriving DecidableEq, Repr

/-- Bytes of a Go string literal or value. -/
def bytes (s : String) : List UInt8 := s.toUTF8.data.toList

/-- Size of `int` in bits (64-bit platforms). -/
def intSize : Nat := 64

/-- Conversion `int64(u)` of an unsigned 64-bit value: two's complement reinterpretation. -/
def toInt64 (u : Nat) : Int :=
  if u % 2 ^ 64 < 2 ^ 63 then ((u % 2 ^ 64 : Nat) : Int) else ((u % 2 ^ 64 : Nat) : Int) - 2 ^ 64

/-- Negation `-n` on `int64`, wrapping at the minimum value. -/
def negInt64 (n : Int) : Int := (-n + 2 ^ 63) % 2 ^ 64 - 2 ^ 63

/-- Go `lower(c)` of `strconv`: `c | ('x' - 'X')`. -/
def lower (c : UInt8) : UInt8 := c ||| 0x20

/-- The value of a byte as a digit in `strconv.ParseUint`: `c - '0'` for a decimal
digit, `lower(c) - 'a' + 10` for a letter, nothing for any other byte (the underscore
is a digit separator only when the base is inferred, which `Atoi` never asks for). -/
def digitVal (c : UInt8) : Option Nat :=
  if 48 ≤ c.toNat ∧ c.toNat ≤ 57 then some (c.toNat - 48)
  else if 97 ≤ (lower c).toNat ∧ (lower c).toNat ≤ 122 then some ((lower c).toNat - 97 + 10)
  else none

/-- The digit loop of `strconv.ParseUint(s, 10, 0)`; `n` is the accumulator, a `uint64`
whose arithmetic wraps modulo `2 ^ 64`. -/
def parseUintLoop : List UInt8 → Nat → Nat × Option NumErr
  | [], n => (n, none)
  | c :: rest, n =>
    match digitVal c with
    | none => (0, some NumErr.ErrSyntax)
    | some d =>
      if d ≥ 10 then (0, some NumErr.ErrSyntax)
      -- cutoff = maxUint64/10 + 1
      else if n ≥ (2 ^ 64 - 1) / 10 + 1 then (2 ^ 64 - 1, some NumErr.ErrRange)
      else
        let n10 := n * 10 % 2 ^ 64
        let n1 := (n10 + d) % 2 ^ 64
        if n1 < n10 ∨ n1 > 2 ^ 64 - 1 then (2 ^ 64 - 1, some NumErr.ErrRange)
        else parseUintLoop rest n1

/-- Go `strconv.ParseUint(s, 10, 0)` on a 64-bit platform. -/
def ParseUint (s : List UInt8) : Nat × Option NumErr :=
  match s with
  | [] => (0, some NumErr.ErrSyntax)
  | _ :: _ => parseUintLoop s 0

/-- Go `strconv.ParseInt(s, 10, 0)` on a 64-bit platform. -/
def ParseInt (s : List UInt8) : Int × Option NumErr :=
  match s with
  | [] => (0, some NumErr.ErrSyntax)
  | c0 :: t =>
    let neg : Bool := c0 == 45
    let s1 := if c0 == 43 then t else if c0 == 45 then t else s
    let r := ParseUint s1
    if r.2 = some NumErr.ErrSyntax then (0, r.2)
    else
      let cutoff : Nat := 2 ^ (intSize - 1)
      if neg = false ∧ r.1 ≥ cutoff then (((cutoff - 1 : Nat) : Int), some NumErr.ErrRange)
      else if neg = true ∧ r.1 > cutoff then (-(cutoff : Int), some NumErr.ErrRange)
      else (if neg then negInt64 (toInt64 r.1) else toInt64 r.1, none)

/-- The digit loop of the fast path of `strconv.Atoi`; `none` is the syntax error.
`ch -= '0'` is byte arithmetic and wraps modulo 256. -/
def atoiLoop : List UInt8 → Int → Option Int
  | [], n => some n
  | ch :: rest, n =>
    let ch : Nat := (ch.toNat + 256 - 48) % 256
    if ch > 9 then none else atoiLoop rest (n * 10 + (ch : Int))

/-- Go `strconv.Atoi` on the bytes of its argument. -/
def AtoiBytes (s : List UInt8) : Int × Option NumErr :=
  if 0 < s.length ∧ s.length < 19 then
    -- fast path for small integers that fit the int type
    let signed : Bool := s.head? == some 45 || s.head? == some 43
    let s1 := if signed then s.tail else s
    if signed = true ∧ s1.length < 1 then (0, some NumErr.ErrSyntax)
    else
      match atoiLoop s1 0 with
      | none => (0, some NumErr.ErrSyntax)
      | some n => (if s.head? == some 45 then -n else n, none)
  else
    -- slow path for invalid, big, or empty input
    ParseInt s

/-- Go `strconv.Atoi`. -/
def Atoi (s : String) : Int × Option NumErr := AtoiBytes (bytes s)

/-! ## Go library: `unicode/utf8`, `unicode`, `bytes`, `fmt` -/

/-- The replacement rune `utf8.RuneError`. -/
def RuneError : Nat := 0xFFFD

/-- The table `utf8.first`: information about the first byte of an encoding
(`as = 0xF0`, `xx = 0xF1`, `s1 = 0x02`, ..., `s7 = 0x44`). -/
def first (b : UInt8) : Nat :=
  if b < 0x80 then 0xF0
  else if b < 0xC2 then 0xF1
  else if b < 0xE0 then 0x02
  else if b = 0xE0 then 0x13
  else if b < 0xED then 0x03
  else if b = 0xED then 0x23
  else if b < 0xF0 then 0x03
  else if b = 0xF0 then 0x34
  else if b < 0xF4 then 0x04
  else if b = 0xF4 then 0x44
  else 0xF1

/-- The table `utf8.acceptRanges`: bounds on the second byte. -/
def acceptRanges (i : Nat) : UInt8 × UInt8 :=
  match i with
  | 0 => (0x80, 0xBF)
  | 1 => (0xA0, 0xBF)
  | 2 => (0x80, 0x9F)
  | 3 => (0x90, 0xBF)
  | 4 => (0x80, 0x8F)
  | _ => (0, 0)

/-- Go `utf8.DecodeRune`: the first rune of `p` and its width in bytes. -/
def DecodeRune (p : List UInt8) : Nat × Nat :=
  match p with
  | [] => (RuneError, 0)
  | p0 :: _ =>
    let x := first p0
    if x ≥ 0xF0 then
      (if x = 0xF0 then p0.toNat else RuneError, 1)
    else
      let sz := x &&& 7
      let accept := acceptRanges (x >>> 4)
      if p.length < sz then (RuneError, 1)
      else
        let b1 := p.getD 1 0
        if b1 < accept.1 ∨ accept.2 < b1 then (RuneError, 1)
        else if sz ≤ 2 then (((p0.toNat &&& 0x1F) <<< 6) ||| (b1.toNat &&& 0x3F), 2)
        else
          let b2 := p.getD 2 0
          if b2 < 0x80 ∨ 0xBF < b2 then (RuneError, 1)
          else if sz ≤ 3 then
            (((p0.toNat &&& 0x0F) <<< 12) ||| ((b1.toNat &&& 0x3F) <<< 6)
              ||| (b2.toNat &&& 0x3F), 3)
          else
            let b3 := p.getD 3 0
            if b3 < 0x80 ∨ 0xBF < b3 then (RuneError, 1)
            else
              (((p0.toNat &&& 0x07) <<< 18) ||| ((b1.toNat &&& 0x3F) <<< 12)
                ||| ((b2.toNat &&& 0x3F) <<< 6) ||| (b3.toNat &&& 0x3F), 4)

/-- Go `utf8.RuneStart`: the byte is not a continuation byte. -/
def RuneStart (b : UInt8) : Bool := b &&& 0xC0 != 0x80

/-- The backward search of `utf8.DecodeLastRune`: `for start--; start >= lim; start--`,
entered with `start` already decremented; `n` bounds the number of iterations. -/
def lastRuneStart (p : List UInt8) (lim : Int) : Nat → Int → Int
  | 0, start => start
  | n + 1, start =>
    if start ≥ lim then
      if RuneStart (p.getD start.toNat 0) then start else lastRuneStart p lim n (start - 1)
    else start

/-- Go `utf8.DecodeLastRune`: the last rune of `p` and its width in bytes. -/
def DecodeLastRune (p : List UInt8) : Nat × Nat :=
  let end_ := p.length
  if end_ = 0 then (RuneError, 0)
  else
    let c := p.getD (end_ - 1) 0
    if c < 0x80 then (c.toNat, 1)
    else
      let lim : Int := if (end_ : Int) - 4 < 0 then 0 else (end_ : Int) - 4
      let start0 := lastRuneStart p lim 5 ((end_ : Int) - 2)
      let start := if start0 < 0 then 0 else start0
      let d := DecodeRune ((p.take end_).drop start.toNat)
      if start + (d.2 : Int) ≠ (end_ : Int) then (RuneError, 1) else d

/-- Go `unicode.IsSpace`. -/
def IsSpace (r : Nat) : Bool :=
  if r ≤ 0xFF then
    r = 0x09 ∨ r = 0x0A ∨ r = 0x0B ∨ r = 0x0C ∨ r = 0x0D ∨ r = 0x20 ∨ r = 0x85 ∨ r = 0xA0
  else
    r = 0x1680 ∨ (0x2000 ≤ r ∧ r ≤ 0x200A) ∨ (0x2028 ≤ r ∧ r ≤ 0x2029) ∨ r = 0x202F
      ∨ r = 0x205F ∨ r = 0x3000

/-- The loop of `bytes.indexFunc`: `pos` is the index of the head of the list in the
slice and `skip` counts the bytes of the current rune still to step over. -/
def indexFuncLoop (f : Nat → Bool) (truth : Bool) : List UInt8 → Nat → Nat → Int
  | [], _, _ => -1
  | _ :: rest, skip + 1, pos => indexFuncLoop f truth rest skip (pos + 1)
  | c :: rest, 0, pos =>
    let d : Nat × Nat := if c ≥ 0x80 then DecodeRune (c :: rest) else (c.toNat, 1)
    if f d.1 == truth then (pos : Int) else indexFuncLoop f truth rest (d.2 - 1) (pos + 1)

/-- Go `bytes.indexFunc`: index of the first rune `r` with `f r = truth`, or `-1`. -/
def indexFunc (s : List UInt8) (f : Nat → Bool) (truth : Bool) : Int :=
  indexFuncLoop f truth s 0 0

/-- The loop of `bytes.lastIndexFunc`, counting `i` down; `skip` counts the bytes of
the current rune still to step over. -/
def lastIndexFuncLoop (s : List UInt8) (f : Nat → Bool) (truth : Bool) : Nat → Nat → Int
  | 0, _ => -1
  | i + 1, skip + 1 => lastIndexFuncLoop s f truth i skip
  | i + 1, 0 =>
    let c := s.getD i 0
    let d : Nat × Nat := if c ≥ 0x80 then DecodeLastRune (s.take (i + 1)) else (c.toNat, 1)
    if f d.1 == truth then ((i + 1 : Nat) : Int) - (d.2 : Int)
    else lastIndexFuncLoop s f truth i (d.2 - 1)

/-- Go `bytes.lastIndexFunc`: index of the last rune `r` with `f r = truth`, or `-1`. -/
def lastIndexFunc (s : List UInt8) (f : Nat → Bool) (truth : Bool) : Int :=
  lastIndexFuncLoop s f truth s.length 0

/-- Go `bytes.TrimLeftFunc`. -/
def TrimLeftFunc (s : List UInt8) (f : Nat → Bool) : List UInt8 :=
  let i := indexFunc s f false
  if i = -1 then [] else s.drop i.toNat

/-- Go `bytes.TrimRightFunc`. -/
def TrimRightFunc (s : List UInt8) (f : Nat → Bool) : List UInt8 :=
  let i := lastIndexFunc s f false
  let i1 : Int :=
    if i ≥ 0 ∧ s.getD i.toNat 0 ≥ 0x80 then i + ((DecodeRune (s.drop i.toNat)).2 : Int)
    else i + 1
  s.take i1.toNat

/-- Go `bytes.TrimFunc`. -/
def TrimFunc (s : List UInt8) (f : Nat → Bool) : List UInt8 :=
  TrimRightFunc (TrimLeftFunc s f) f

/-- The table `bytes.asciiSpace`. -/
def asciiSpace (c : UInt8) : Bool :=
  c == 0x09 || c == 0x0A || c == 0x0B || c == 0x0C || c == 0x0D || c == 0x20

/-- Second loop of `bytes.TrimSpace` (`for ; stop > start; stop--`), run over the
reversal of `s[start:stop]`. -/
def trimSpaceStop : List UInt8 → List UInt8
  | [] => []
  | c :: rest =>
    if c ≥ 0x80 then TrimFunc (c :: rest).reverse IsSpace
    else if asciiSpace c then trimSpaceStop rest
    else (c :: rest).reverse

/-- First loop of `bytes.TrimSpace` (`for ; start < len(s); start++`), run over
`s[start:]`. -/
def trimSpaceStart : List UInt8 → List UInt8
  | [] => []
  | c :: rest =>
    if c ≥ 0x80 then TrimFunc (c :: rest) IsSpace
    else if asciiSpace c then trimSpaceStart rest
    else trimSpaceStop (c :: rest).reverse

/-- Go `bytes.TrimSpace`: `s` without leading and trailing white space, as defined by
Unicode. -/
def TrimSpace (s : List UInt8) : List UInt8 := trimSpaceStart s

/-- Go `bytes.Equal`. -/
def Equal (a b : List UInt8) : Bool := a == b

/-- The text `fmt` produces for a byte slice under `%v`: `[116 114 117 101]`. -/
def fmtBytes (b : List UInt8) : String :=
  "[" ++ " ".intercalate (b.map fun c => toString c.toNat) ++ "]"

/-! ## The outside world -/

/-- What `(*exec.Cmd).CombinedOutput` returns: the combined standard output and standard
error, and the error (`none` is `nil`, `some msg` an error whose text is `msg`). -/
structure CmdResult where
  out : List UInt8
  err : Option String

/-- An `os.DirEntry`, as far as the program looks at it. -/
structure DirEntry where
  Name : String
  IsDir : Bool
  deriving DecidableEq

/-- Everything the program obtains from outside the process.  `CombinedOutput dir argv`
is the result of running `argv` with the working directory `dir`; `Join` is
`filepath.Join`, which depends on the platform. -/
structure Sys where
  Args : List String
  Getenv : String → String
  ReadDir : String → Except String (List DirEntry)
  Join : String → String → String
  CombinedOutput : String → List String → CmdResult

/-! ## `cmd/gp/main.go` -/

/-- Source `type RepositoryState int`. -/
abbrev RepositoryState := Int

/-- First constant of the `iota` block. -/
def Updated : RepositoryState := 0

/-- Second constant of the `iota` block. -/
def Skipped : RepositoryState := 1

/-- Third constant of the `iota` block. -/
def PullFailed : RepositoryState := 2

/-- The map `stateName`, as its list of key-value pairs. -/
def stateName : List (RepositoryState × String) :=
  [(Updated, "updated"), (Skipped, "skipped (dirty)"), (PullFailed, "pull failed")]

/-- Source `type Result struct`. -/
structure Result where
  Path : String
  State : RepositoryState
  deriving DecidableEq

/-- Source `func (rs RepositoryState) String() string`. -/
def RepositoryState.String (rs : RepositoryState) : String :=
  match stateName.lookup rs with
  | some s => s
  | none => "?"

/-- Observable steps of a goroutine. -/
inductive Event where
  /-- A record written to standard output by `slog.Debug`. -/
  | debug (msg : String)
  /-- A subprocess `argv` run to completion with working directory `dir`. -/
  | exec (dir : String) (argv : List String)
  /-- The statement `go PullIfClean(path, results)`. -/
  | spawn (path : String)
  /-- A send `res <- r` that completed. -/
  | send (r : Result)
  /-- A receive `<-results` that returned `r`. -/
  | recv (r : Result)
  /-- The text `fmt.Fprintf` wrote into the tabwriter. -/
  | fprintf (text : String)
  /-- The call `w.Flush()`. -/
  | flush
  deriving DecidableEq

/-- Go `slog.Debug(msg)`: a record is written only when `initLogger` installed the handler
of level `slog.LevelDebug` (`lg = true`); the default logger drops it. -/
def slogDebug (lg : Bool) (msg : String) : List Event :=
  if lg then [Event.debug msg] else []

/-- Source `func initLogger()`: the records written and whether the debug handler is
installed afterwards. -/
def initLogger (sys : Sys) : List Event × Bool :=
  let d := (Atoi (sys.Getenv "DEBUG")).1
  if d ≠ 1 then ([], false)
  else ([Event.debug "debug mode enabled"], true)

/-- The command line of the probe. -/
def revParseCmd : List String := ["git", "rev-parse", "--is-inside-work-tree"]

/-- The command line of the cleanliness check. -/
def statusCmd : List String := ["git", "status", "--porcelain"]

/-- The command line of the pull. -/
def pullCmd : List String := ["git", "pull", "--ff-only"]

/-- Source `func IsRepository(root string) bool`: its events and its result. -/
def IsRepository (sys : Sys) (lg : Bool) (root : String) : List Event × Bool :=
  let e1 := slogDebug lg "running: git rev-parse --is-inside-work-tree"
  let c := sys.CombinedOutput root revParseCmd
  let e2 := [Event.exec root revParseCmd]
  match c.err with
  | some _ => (e1 ++ e2, false)
  | none =>
    let e3 := slogDebug lg ("output: " ++ fmtBytes c.out)
    let clean := TrimSpace c.out
    (e1 ++ e2 ++ e3, Equal clean (bytes "true"))

/-- Source `func PullIfClean(root string, res chan<- Result)`: its events, the sends on `res`
among them. -/
def PullIfClean (sys : Sys) (lg : Bool) (root : String) : List Event :=
  let e1 := slogDebug lg "running: git status --porcelain"
  let c := sys.CombinedOutput root statusCmd
  let e2 := [Event.exec root statusCmd]
  match c.err with
  | some err =>
    e1 ++ e2 ++ slogDebug lg ("repo " ++ root ++ " not clean with error: " ++ err)
      ++ [Event.send { Path := root, State := Skipped }]
  | none =>
    if c.out.length ≠ 0 then
      e1 ++ e2 ++ slogDebug lg ("repo " ++ root ++ " not clean")
        ++ [Event.send { Path := root, State := Skipped }]
    else
      let e3 := slogDebug lg "running: git pull --ff-only"
      let p := sys.CombinedOutput root pullCmd
      let e4 := [Event.exec root pullCmd]
      match p.err with
      | some err =>
        e1 ++ e2 ++ e3 ++ e4
          ++ slogDebug lg ("repo " ++ root ++ " failed to git pull with error: " ++ err)
          ++ [Event.send { Path := root, State := PullFailed }]
      | none =>
        e1 ++ e2 ++ e3 ++ e4 ++ [Event.send { Path := root, State := Updated }]

/-- The values a goroutine sends on the channel, in order. -/
def sends : List Event → List Result
  | [] => []
  | Event.send r :: es => r :: sends es
  | _ :: es => sends es

/-- The values received from the channel, in order. -/
def received : List Event → List Result
  | [] => []
  | Event.recv r :: es => r :: received es
  | _ :: es => received es

/-- The texts written into the tabwriter, in order: the rows of the report. -/
def rows : List Event → List String
  | [] => []
  | Event.fprintf t :: es => t :: rows es
  | _ :: es => rows es

/-- The subprocesses run, in order. -/
def execs : List Event → List (String × List String)
  | [] => []
  | Event.exec d a :: es => (d, a) :: execs es
  | _ :: es => execs es

/-- The goroutines started, in order. -/
def spawns : List Event → List String
  | [] => []
  | Event.spawn p :: es => p :: spawns es
  | _ :: es => spawns es

/-- The loop `for _, e := range entries` of `main`: the events of the main goroutine
and the paths for which a worker goroutine was started, in order (`workers` is the
length of that list). -/
def scan (sys : Sys) (lg : Bool) (root : String) : List DirEntry → List Event × List String
  | [] => ([], [])
  | e :: es =>
    let rest := scan sys lg root es
    if !e.IsDir then rest
    else
      let path := sys.Join root e.Name
      let e1 := slogDebug lg ("processing path: " ++ path)
      let probe := IsRepository sys lg path
      if !probe.2 then (e1 ++ probe.1 ++ rest.1, rest.2)
      else (e1 ++ probe.1 ++ [Event.spawn path] ++ rest.1, path :: rest.2)

/-- Number of goroutines of the pool that have a send pending. -/
def ready (pool : List (List Result)) : Nat :=
  (pool.filter fun q => !q.isEmpty).length

/-- Take the next value of the `k`-th goroutine among those with a send pending. -/
def takeNth : Nat → List (List Result) → Option (Result × List (List Result))
  | _, [] => none
  | k, [] :: pool => (takeNth k pool).map fun x => (x.1, [] :: x.2)
  | 0, (r :: q) :: pool => some (r, q :: pool)
  | k + 1, (r :: q) :: pool => (takeNth k pool).map fun x => (x.1, (r :: q) :: x.2)

/-- A receive on the unbuffered channel.  `pool` holds, per started goroutine, the
values it has still to send; the receive meets one of the goroutines whose next step
is a send, the one the scheduler choice `k` selects.  `none`: no goroutine will ever
send, the receive blocks forever. -/
def chanRecv (k : Nat) (pool : List (List Result)) : Option (Result × List (List Result)) :=
  if ready pool = 0 then none else takeNth (k % ready pool) pool

/-- The text `fmt.Fprintf(w, "%s\t%s\n", res.Path, res.State)` writes; `%s` renders the
state through its `String` method. -/
def rowText (res : Result) : String :=
  res.Path ++ "\t" ++ RepositoryState.String res.State ++ "\n"

/-- The loop `for i := 0; i < workers; i++` of `main`, with `n` iterations left: the
events of the main goroutine and whether the loop ran to its end. -/
def collect (sched : Nat → Nat) : Nat → Nat → List (List Result) → List Event × Bool
  | 0, _, _ => ([], true)
  | n + 1, i, pool =>
    match chanRecv (sched i) pool with
    | none => ([], false)
    | some (res, pool1) =>
      let rest := collect sched n (i + 1) pool1
      (Event.recv res :: Event.fprintf (rowText res) :: rest.1, rest.2)

/-- How a run of the program ends. -/
inductive Status where
  /-- Return from `main`: exit status 0. -/
  | exited
  /-- Call of `panic(err)`: abnormal termination. -/
  | panicked (err : String)
  /-- The main goroutine waits on a receive that no goroutine will serve. -/
  | blocked
  deriving DecidableEq

/-- A run of the program: the events of the main goroutine, the events of every worker
goroutine in the order they were started, and how the run ends. -/
structure Run where
  trace : List Event
  workers : List (List Event)
  status : Status

/-- The root directory `main` scans: `os.Args[1]` when `len(os.Args) > 1`, `"."`
otherwise. -/
def rootArg (sys : Sys) : String :=
  if sys.Args.length > 1 then sys.Args.getD 1 "" else "."

/-- Source `func main()`.  `sched i` is the choice the scheduler makes at the `i`-th receive. -/
def main (sys : Sys) (sched : Nat → Nat) : Run :=
  let lg := initLogger sys
  let root := rootArg sys
  match sys.ReadDir root with
  | Except.error err => { trace := lg.1, workers := [], status := Status.panicked err }
  | Except.ok entries =>
    let sc := scan sys lg.2 root entries
    let gs := sc.2.map fun path => PullIfClean sys lg.2 path
    let co := collect sched sc.2.length 0 (gs.map sends)
    if co.2 then
      { trace := lg.1 ++ sc.1 ++ co.1 ++ [Event.flush], workers := gs, status := Status.exited }
    else
      { trace := lg.1 ++ sc.1 ++ co.1, workers := gs, status := Status.blocked }

/-! ## Notions used in the statements -/

/-- The entries for which the loop of `main` starts a worker: the directories that
pass the probe. -/
def qualifies (sys : Sys) (lg : Bool) (root : String) (e : DirEntry) : Bool :=
  e.IsDir && (IsRepository sys lg (sys.Join root e.Name)).2

/-- The state `PullIfClean` reports for `root`, read off its three exits. -/
def sentState (sys : Sys) (root : String) : RepositoryState :=
  if (sys.CombinedOutput root statusCmd).err = none
      ∧ (sys.CombinedOutput root statusCmd).out = [] then
    if (sys.CombinedOutput root pullCmd).err = none then Updated else PullFailed
  else Skipped

/-- The byte strings `0...01`: any number of `0` digits followed by the digit `1`. -/
def zerosOne (s : List UInt8) : Prop := ∃ k : Nat, s = List.replicate k 48 ++ [49]

/-- The byte strings that spell the integer one in base ten: an optional `+`, any
number of `0` digits, and the digit `1`. -/
def spellsOne (s : List UInt8) : Prop := zerosOne s ∨ ∃ t, s = 43 :: t ∧ zerosOne t

/-- Removal of leading and trailing ASCII white space, written with `dropWhile`. -/
def trimAscii (s : List UInt8) : List UInt8 :=
  ((s.dropWhile asciiSpace).reverse.dropWhile asciiSpace).reverse

/-! ## A concrete system

The root `/w` holds the file `f.txt` and the directories `notes`, `repoA` and `repoB`;
`repoA` is clean and pulls, `repoB` has a modified file, `notes` is no repository. -/

/-- The `git` of the example system. -/
def exampleGit (dir : String) (argv : List String) : CmdResult :=
  if argv = revParseCmd then
    if dir = "/w/notes" then
      { out := bytes "fatal: not a git repository\n", err := some "exit status 128" }
    else { out := bytes "true\n", err := none }
  else if argv = statusCmd then
    if dir = "/w/repoB" then { out := bytes " M x\n", err := none }
    else { out := [], err := none }
  else { out := bytes "Already up to date.\n", err := none }

/-- The example system. -/
def exampleSys : Sys where
  Args := ["gp", "/w"]
  Getenv := fun k => if k = "DEBUG" then "1" else ""
  ReadDir := fun d =>
    if d = "/w" then
      Except.ok [⟨"f.txt", false⟩, ⟨"notes", true⟩, ⟨"repoA", true⟩, ⟨"repoB", true⟩]
    else Except.error "no such file or directory"
  Join := fun r n => r ++ "/" ++ n
  CombinedOutput := exampleGit

/-- A scheduler that always serves the first goroutine that is ready to send. -/
def firstReady : Nat → Nat := fun _ => 0

/-- A scheduler that always serves the second goroutine that is ready to send, when
there is one. -/
def secondReady : Nat → Nat := fun _ => 1

/-- The example system started on a root that does not exist. -/
def unlistedSys : Sys := { exampleSys with Args := ["gp", "/nowhere"] }

/-- The example system with a root that holds the three directories only. -/
def scenarioSys : Sys :=
  { exampleSys with
    ReadDir := fun _ => Except.ok [⟨"notes", true⟩, ⟨"repoA", true⟩, ⟨"repoB", true⟩] }

/-- The example system without the variable `DEBUG`. -/
def unsetSys : Sys := { exampleSys with Getenv := fun _ => "" }

/-! ## Auxiliary facts -/

theorem String_cases (rs : RepositoryState) :
    RepositoryState.String rs =
      if rs = 0 then "updated" else if rs = 1 then "skipped (dirty)"
      else if rs = 2 then "pull failed" else "?" := by
  unfold RepositoryState.String stateName Updated Skipped PullFailed
  by_cases h0 : rs = 0
  · subst h0; rfl
  by_cases h1 : rs = 1
  · subst h1; rfl
  by_cases h2 : rs = 2
  · subst h2; rfl
  have b0 : (rs == 0) = false := by simpa using h0
  have b1 : (rs == 1) = false := by simpa using h1
  have b2 : (rs == 2) = false := by simpa using h2
  simp [List.lookup, h0, h1, h2, b0, b1, b2]

theorem sends_append (a b : List Event) : sends (a ++ b) = sends a ++ sends b := by
  induction a with
  | nil => rfl
  | cons e es ih => cases e <;> simp [sends, ih]

theorem execs_append (a b : List Event) : execs (a ++ b) = execs a ++ execs b := by
  induction a with
  | nil => rfl
  | cons e es ih => cases e <;> simp [execs, ih]

@[simp] theorem sends_slogDebug (lg : Bool) (m : String) : sends (slogDebug lg m) = [] := by
  cases lg <;> rfl

@[simp] theorem execs_slogDebug (lg : Bool) (m : String) : execs (slogDebug lg m) = [] := by
  cases lg <;> rfl

/-- The one value `PullIfClean` sends, as a function of the command results. -/
theorem PullIfClean_sends (sys : Sys) (lg : Bool) (root : String) :
    sends (PullIfClean sys lg root) =
      [{ Path := root, State := sentState sys root }] := by
  unfold PullIfClean sentState
  cases h : (sys.CombinedOutput root statusCmd).err with
  | some e => simp [h, sends_append, sends]
  | none =>
    cases ho : (sys.CombinedOutput root statusCmd).out with
    | cons b t => simp [h, ho, sends_append, sends]
    | nil =>
      cases hp : (sys.CombinedOutput root pullCmd).err with
      | some e => simp [h, ho, hp, sends_append, sends]
      | none => simp [h, ho, hp, sends_append, sends]

/-- The subprocesses `PullIfClean` runs, as a function of the result of the first. -/
theorem PullIfClean_execs (sys : Sys) (lg : Bool) (root : String) :
    execs (PullIfClean sys lg root) =
      if (sys.CombinedOutput root statusCmd).err = none
          ∧ (sys.CombinedOutput root statusCmd).out = [] then
        [(root, statusCmd), (root, pullCmd)]
      else [(root, statusCmd)] := by
  unfold PullIfClean
  cases h : (sys.CombinedOutput root statusCmd).err with
  | some e => simp [h, execs_append, execs]
  | none =>
    cases ho : (sys.CombinedOutput root statusCmd).out with
    | cons b t => simp [h, ho, execs_append, execs]
    | nil =>
      cases hp : (sys.CombinedOutput root pullCmd).err with
      | some e => simp [h, ho, hp, execs_append, execs]
      | none => simp [h, ho, hp, execs_append, execs]

theorem ParseInt_err (s : List UInt8) (e : NumErr) (h : (ParseInt s).2 = some e) :
    (ParseInt s).1 = 0 ∨ (ParseInt s).1 = 2 ^ 63 - 1 ∨ (ParseInt s).1 = -2 ^ 63 := by
  unfold ParseInt at h ⊢
  cases s with
  | nil => simp
  | cons c0 t =>
    simp only at h ⊢
    generalize ParseUint (if (c0 == 43) = true then t else if (c0 == 45) = true then t
      else c0 :: t) = r at h ⊢
    by_cases h1 : r.2 = some NumErr.ErrSyntax
    · simp [h1]
    · by_cases h2 : (c0 == 45) = false ∧ r.1 ≥ 2 ^ (intSize - 1)
      · right; left
        rw [if_neg h1, if_pos h2]
        simp [intSize]
      · by_cases h3 : (c0 == 45) = true ∧ r.1 > 2 ^ (intSize - 1)
        · right; right
          rw [if_neg h1, if_neg h2, if_pos h3]
          simp [intSize]
        · rw [if_neg h1, if_neg h2, if_neg h3] at h
          simp at h

theorem AtoiBytes_err (s : List UInt8) (e : NumErr) (h : (AtoiBytes s).2 = some e) :
    (AtoiBytes s).1 ≠ 1 := by
  unfold AtoiBytes at h ⊢
  by_cases hlen : 0 < s.length ∧ s.length < 19
  · rw [if_pos hlen] at h ⊢
    simp only at h ⊢
    generalize (s.head? == some 45 || s.head? == some 43) = signed at h ⊢
    generalize (if signed = true then s.tail else s) = s1 at h ⊢
    by_cases hc : signed = true ∧ s1.length < 1
    · rw [if_pos hc]; simp
    · rw [if_neg hc] at h ⊢
      cases hl : atoiLoop s1 0 with
      | none => simp
      | some n => rw [hl] at h; simp at h
  · rw [if_neg hlen] at h ⊢
    rcases ParseInt_err s e h with h0 | h0 | h0 <;> rw [h0] <;> decide

theorem Atoi_one_iff (s : String) : (Atoi s).1 = 1 ↔ Atoi s = (1, none) := by
  constructor
  · intro h
    cases he : (Atoi s).2 with
    | none => exact Prod.ext h he
    | some e => exact absurd h (AtoiBytes_err (bytes s) e he)
  · intro h; rw [h]

theorem received_append (a b : List Event) : received (a ++ b) = received a ++ received b := by
  induction a with
  | nil => rfl
  | cons e es ih => cases e <;> simp [received, ih]

theorem rows_append (a b : List Event) : rows (a ++ b) = rows a ++ rows b := by
  induction a with
  | nil => rfl
  | cons e es ih => cases e <;> simp [rows, ih]

theorem spawns_append (a b : List Event) : spawns (a ++ b) = spawns a ++ spawns b := by
  induction a with
  | nil => rfl
  | cons e es ih => cases e <;> simp [spawns, ih]

@[simp] theorem received_slogDebug (lg : Bool) (m : String) : received (slogDebug lg m) = [] := by
  cases lg <;> rfl

@[simp] theorem rows_slogDebug (lg : Bool) (m : String) : rows (slogDebug lg m) = [] := by
  cases lg <;> rfl

@[simp] theorem spawns_slogDebug (lg : Bool) (m : String) : spawns (slogDebug lg m) = [] := by
  cases lg <;> rfl

/-- The result of the probe in terms of the command result; the logger plays no part. -/
theorem IsRepository_snd (sys : Sys) (lg : Bool) (root : String) :
    (IsRepository sys lg root).2 =
      (decide ((sys.CombinedOutput root revParseCmd).err = none)
        && Equal (TrimSpace (sys.CombinedOutput root revParseCmd).out) (bytes "true")) := by
  unfold IsRepository
  cases h : (sys.CombinedOutput root revParseCmd).err with
  | some e => simp [h]
  | none => simp [h]

/-- The probe runs one subprocess and nothing else that the report could show. -/
theorem IsRepository_fst (sys : Sys) (lg : Bool) (root : String) :
    received (IsRepository sys lg root).1 = [] ∧ rows (IsRepository sys lg root).1 = []
      ∧ spawns (IsRepository sys lg root).1 = []
      ∧ sends (IsRepository sys lg root).1 = []
      ∧ execs (IsRepository sys lg root).1 = [(root, revParseCmd)] := by
  unfold IsRepository
  cases h : (sys.CombinedOutput root revParseCmd).err with
  | some e =>
    simp [h, received_append, rows_append, spawns_append, sends_append, execs_append,
      received, rows, spawns, sends, execs]
  | none =>
    simp [h, received_append, rows_append, spawns_append, sends_append, execs_append,
      received, rows, spawns, sends, execs]

theorem qualifies_lg (sys : Sys) (lg lg1 : Bool) (root : String) (e : DirEntry) :
    qualifies sys lg root e = qualifies sys lg1 root e := by
  simp [qualifies, IsRepository_snd]

theorem scan_snd (sys : Sys) (lg : Bool) (root : String) (entries : List DirEntry) :
    (scan sys lg root entries).2 =
      (entries.filter (qualifies sys lg root)).map fun e => sys.Join root e.Name := by
  induction entries with
  | nil => rfl
  | cons e es ih =>
    unfold scan
    cases hd : e.IsDir with
    | false => simp [hd, qualifies, ih]
    | true =>
      cases hp : (IsRepository sys lg (sys.Join root e.Name)).2 with
      | false => simp [hd, hp, qualifies, ih]
      | true => simp [hd, hp, qualifies, ih]

theorem scan_fst (sys : Sys) (lg : Bool) (root : String) (entries : List DirEntry) :
    received (scan sys lg root entries).1 = [] ∧ rows (scan sys lg root entries).1 = []
      ∧ spawns (scan sys lg root entries).1 = (scan sys lg root entries).2 := by
  induction entries with
  | nil => simp [scan, received, rows, spawns]
  | cons e es ih =>
    obtain ⟨ih1, ih2, ih3⟩ := ih
    have hp := IsRepository_fst sys lg (sys.Join root e.Name)
    obtain ⟨p1, p2, p3, -, -⟩ := hp
    unfold scan
    cases hd : e.IsDir with
    | false => simp [hd, ih1, ih2, ih3]
    | true =>
      cases hq : (IsRepository sys lg (sys.Join root e.Name)).2 with
      | false =>
        simp [hd, hq, received_append, rows_append, spawns_append, ih1, ih2, ih3, p1, p2, p3]
      | true =>
        simp [hd, hq, received_append, rows_append, spawns_append, ih1, ih2, ih3, p1, p2, p3,
          received, rows, spawns]

theorem takeNth_perm (pool : List (List Result)) :
    ∀ (k : Nat) (r : Result) (pool1 : List (List Result)),
      takeNth k pool = some (r, pool1) → pool.flatten.Perm (r :: pool1.flatten) := by
  induction pool with
  | nil => intro k r pool1 h; simp [takeNth] at h
  | cons q pool ih =>
    intro k r pool1 h
    cases q with
    | nil =>
      simp only [takeNth, Option.map_eq_some'] at h
      obtain ⟨x, hx, hx2⟩ := h
      cases hx2
      simpa using ih k x.1 x.2 hx
    | cons a q =>
      cases k with
      | zero =>
        simp only [takeNth, Option.some.injEq, Prod.mk.injEq] at h
        obtain ⟨h1, h2⟩ := h
        subst h1 h2
        simp
      | succ k =>
        simp only [takeNth, Option.map_eq_some'] at h
        obtain ⟨x, hx, hx2⟩ := h
        cases hx2
        have := ih k x.1 x.2 hx
        simp only [List.flatten_cons, List.cons_append]
        refine (List.Perm.cons a (List.Perm.append_left q this)).trans ?_
        refine (List.Perm.cons a List.perm_middle).trans ?_
        exact List.Perm.swap _ _ _

theorem takeNth_isSome (pool : List (List Result)) :
    ∀ k : Nat, k < ready pool → (takeNth k pool).isSome = true := by
  induction pool with
  | nil => intro k h; simp [ready] at h
  | cons q pool ih =>
    intro k h
    cases q with
    | nil =>
      have : k < ready pool := by simpa [ready] using h
      simpa [takeNth] using ih k this
    | cons a q =>
      cases k with
      | zero => simp [takeNth]
      | succ k =>
        have : k < ready pool := by simpa [ready] using h
        simpa [takeNth] using ih k this

theorem ready_pos (pool : List (List Result)) (h : 0 < pool.flatten.length) : 0 < ready pool := by
  induction pool with
  | nil => simp at h
  | cons q pool ih =>
    cases q with
    | nil => simpa [ready] using ih (by simpa using h)
    | cons a q => simp [ready]

theorem chanRecv_isSome (k : Nat) (pool : List (List Result)) (h : 0 < pool.flatten.length) :
    (chanRecv k pool).isSome = true := by
  have hr := ready_pos pool h
  unfold chanRecv
  rw [if_neg (by omega)]
  exact takeNth_isSome pool _ (Nat.mod_lt _ hr)

theorem chanRecv_perm (k : Nat) (pool : List (List Result)) (r : Result)
    (pool1 : List (List Result)) (h : chanRecv k pool = some (r, pool1)) :
    pool.flatten.Perm (r :: pool1.flatten) := by
  unfold chanRecv at h
  split at h
  · cases h
  · exact takeNth_perm pool _ r pool1 h

theorem collect_spec (sched : Nat → Nat) :
    ∀ (n i : Nat) (pool : List (List Result)), n ≤ pool.flatten.length →
      (collect sched n i pool).2 = true
        ∧ (received (collect sched n i pool).1).length = n
        ∧ rows (collect sched n i pool).1 = (received (collect sched n i pool).1).map rowText
        ∧ spawns (collect sched n i pool).1 = []
        ∧ execs (collect sched n i pool).1 = []
        ∧ ∃ rest, pool.flatten.Perm (received (collect sched n i pool).1 ++ rest) := by
  intro n
  induction n with
  | zero =>
    intro i pool _
    simp only [collect, received, rows, spawns, execs, List.length_nil, List.map_nil,
      List.nil_append, true_and]
    exact ⟨pool.flatten, List.Perm.refl _⟩
  | succ n ih =>
    intro i pool h
    have hs := chanRecv_isSome (sched i) pool (by omega)
    cases hc : chanRecv (sched i) pool with
    | none => simp [hc] at hs
    | some x =>
      obtain ⟨r, pool1⟩ := x
      have hp := chanRecv_perm (sched i) pool r pool1 hc
      have hl : n ≤ pool1.flatten.length := by
        have := hp.length_eq
        rw [List.length_cons] at this
        omega
      obtain ⟨h1, h2, h3, h4, h5, rest, h6⟩ := ih (i + 1) pool1 hl
      simp only [collect, hc]
      refine ⟨h1, ?_, ?_, ?_, ?_, rest, ?_⟩
      · simp [received, h2]
      · simp [received, rows, h3]
      · simp [spawns, h4]
      · simp [execs, h5]
      · simp only [received, List.cons_append]
        exact hp.trans (List.Perm.cons r h6)

theorem flatten_sends (sys : Sys) (lg : Bool) (paths : List String) :
    ((paths.map fun path => PullIfClean sys lg path).map sends).flatten =
      paths.map fun path => ({ Path := path, State := sentState sys path } : Result) := by
  induction paths with
  | nil => rfl
  | cons p ps ih =>
    simp only [List.map_cons, List.flatten_cons, PullIfClean_sends]
    rw [ih]
    rfl

theorem initLogger_fst (sys : Sys) :
    received (initLogger sys).1 = [] ∧ rows (initLogger sys).1 = []
      ∧ spawns (initLogger sys).1 = [] ∧ execs (initLogger sys).1 = [] := by
  unfold initLogger
  by_cases hd : (Atoi (sys.Getenv "DEBUG")).1 ≠ 1
  · simp [hd, received, rows, spawns, execs]
  · simp [hd, received, rows, spawns, execs]

/-- A run whose listing succeeds: `main` returns, and what it received is, up to order,
one value per qualifying entry. -/
theorem main_ok (sys : Sys) (sched : Nat → Nat) (entries : List DirEntry)
    (h : sys.ReadDir (rootArg sys) = Except.ok entries) :
    (main sys sched).status = Status.exited
      ∧ (∃ pre, (main sys sched).trace = pre ++ [Event.flush])
      ∧ (received (main sys sched).trace).Perm
          (((entries.filter (qualifies sys (initLogger sys).2 (rootArg sys))).map
            (fun e => sys.Join (rootArg sys) e.Name)).map
            (fun path => ({ Path := path, State := sentState sys path } : Result)))
      ∧ rows (main sys sched).trace = (received (main sys sched).trace).map rowText
      ∧ spawns (main sys sched).trace =
          (entries.filter (qualifies sys (initLogger sys).2 (rootArg sys))).map
            (fun e => sys.Join (rootArg sys) e.Name)
      ∧ (main sys sched).workers =
          ((entries.filter (qualifies sys (initLogger sys).2 (rootArg sys))).map
            (fun e => sys.Join (rootArg sys) e.Name)).map
            (fun path => PullIfClean sys (initLogger sys).2 path) := by
  have hsc := scan_snd sys (initLogger sys).2 (rootArg sys) entries
  obtain ⟨s1, s2, s3⟩ := scan_fst sys (initLogger sys).2 (rootArg sys) entries
  obtain ⟨l1, l2, l3, -⟩ := initLogger_fst sys
  have hfl := flatten_sends sys (initLogger sys).2
    (scan sys (initLogger sys).2 (rootArg sys) entries).2
  have hlen : (scan sys (initLogger sys).2 (rootArg sys) entries).2.length ≤
      (((scan sys (initLogger sys).2 (rootArg sys) entries).2.map
        fun path => PullIfClean sys (initLogger sys).2 path).map sends).flatten.length := by
    rw [hfl]; simp
  obtain ⟨c1, c2, c3, c4, -, rest, c6⟩ := collect_spec sched _ 0 _ hlen
  have hrest : rest = [] := by
    have := c6.length_eq
    rw [hfl, List.length_append, c2] at this
    simp at this
    exact this
  subst hrest
  rw [List.append_nil, hfl] at c6
  unfold main
  simp only [h, c1, if_true]
  refine ⟨trivial, ⟨_, rfl⟩, ?_, ?_, ?_, ?_⟩
  · simp only [received_append, l1, s1, received, List.nil_append, List.append_nil]
    rw [← hsc]
    exact c6.symm
  · simp only [received_append, rows_append, l1, l2, s1, s2, received, rows, List.nil_append,
      List.append_nil]
    exact c3
  · simp only [spawns_append, l3, s3, c4, spawns, List.nil_append, List.append_nil]
    exact hsc
  · rw [hsc]

/-- A run whose listing fails: `main` panics right after `initLogger`. -/
theorem main_panic (sys : Sys) (sched : Nat → Nat) (err : String)
    (h : sys.ReadDir (rootArg sys) = Except.error err) :
    (main sys sched).status = Status.panicked err
      ∧ (main sys sched).trace = (initLogger sys).1
      ∧ (main sys sched).workers = [] := by
  unfold main
  simp only [h]
  exact ⟨trivial, trivial, trivial⟩

theorem rowText_Updated (p : String) :
    rowText { Path := p, State := Updated } = p ++ "\tupdated\n" := by
  unfold rowText
  show p ++ "\t" ++ "updated" ++ "\n" = p ++ "\tupdated\n"
  rw [String.append_assoc, String.append_assoc]
  rfl

theorem rowText_Skipped (p : String) :
    rowText { Path := p, State := Skipped } = p ++ "\tskipped (dirty)\n" := by
  unfold rowText
  show p ++ "\t" ++ "skipped (dirty)" ++ "\n" = p ++ "\tskipped (dirty)\n"
  rw [String.append_assoc, String.append_assoc]
  rfl

theorem rowText_PullFailed (p : String) :
    rowText { Path := p, State := PullFailed } = p ++ "\tpull failed\n" := by
  unfold rowText
  show p ++ "\t" ++ "pull failed" ++ "\n" = p ++ "\tpull failed\n"
  rw [String.append_assoc, String.append_assoc]
  rfl

theorem sentState_cases (sys : Sys) (root : String) :
    sentState sys root = Updated ∨ sentState sys root = Skipped
      ∨ sentState sys root = PullFailed := by
  unfold sentState
  split
  · split
    · exact Or.inl rfl
    · exact Or.inr (Or.inr rfl)
  · exact Or.inr (Or.inl rfl)

theorem flush_not_mem_initLogger (sys : Sys) : Event.flush ∉ (initLogger sys).1 := by
  unfold initLogger
  by_cases hd : (Atoi (sys.Getenv "DEBUG")).1 ≠ 1
  · simp [hd]
  · simp [hd]

theorem zerosOne_cons (c : UInt8) (rest : List UInt8) :
    zerosOne (c :: rest) ↔ (c = 48 ∧ zerosOne rest) ∨ (c = 49 ∧ rest = []) := by
  constructor
  · rintro ⟨k, hk⟩
    cases k with
    | zero =>
      simp only [List.replicate_zero, List.nil_append, List.cons.injEq] at hk
      exact Or.inr hk
    | succ k =>
      simp only [List.replicate_succ, List.cons_append, List.cons.injEq] at hk
      exact Or.inl ⟨hk.1, k, hk.2⟩
  · rintro (⟨rfl, k, rfl⟩ | ⟨rfl, rfl⟩)
    · exact ⟨k + 1, by simp [List.replicate_succ]⟩
    · exact ⟨0, by simp⟩

theorem zerosOne_nil : ¬ zerosOne [] := by
  rintro ⟨k, hk⟩
  have := congrArg List.length hk
  simp at this

theorem atoiLoop_ge : ∀ (s : List UInt8) (n m : Int), 0 ≤ n → atoiLoop s n = some m → n ≤ m := by
  intro s
  induction s with
  | nil => intro n m _ h; simp [atoiLoop] at h; omega
  | cons c rest ih =>
    intro n m hn h
    simp only [atoiLoop] at h
    split at h
    · cases h
    · have := ih _ m (by omega) h
      omega

theorem atoiLoop_big : ∀ (s : List UInt8) (n m : Int), 1 ≤ n → s ≠ [] →
    atoiLoop s n = some m → 10 ≤ m := by
  intro s n m hn hs h
  cases s with
  | nil => exact absurd rfl hs
  | cons c rest =>
    simp only [atoiLoop] at h
    split at h
    · cases h
    · have := atoiLoop_ge rest _ m (by omega) h
      omega

theorem atoiLoop_one : ∀ s : List UInt8, atoiLoop s 0 = some 1 ↔ zerosOne s := by
  intro s
  induction s with
  | nil => simp [atoiLoop, zerosOne_nil]
  | cons c rest ih =>
    rw [zerosOne_cons]
    have hc := UInt8.toNat_lt c
    simp only [atoiLoop]
    by_cases h48 : c.toNat = 48
    · have hc48 : c = 48 := UInt8.ext (by simpa using h48)
      have n49 : c ≠ 49 := by rw [hc48]; decide
      rw [h48]
      simp [ih, hc48]
    · by_cases h49 : c.toNat = 49
      · have hc49 : c = 49 := UInt8.ext (by simpa using h49)
        have n48 : c ≠ 48 := by rw [hc49]; decide
        have : ∀ rest : List UInt8, atoiLoop rest 1 = some 1 ↔ rest = [] := by
          intro rest
          constructor
          · intro h
            by_contra hne
            have := atoiLoop_big rest 1 1 (by omega) hne h
            omega
          · rintro rfl; rfl
        rw [h49]
        simp [this rest, hc49]
      · have n48 : c ≠ 48 := fun h => h48 (by rw [h]; rfl)
        have n49 : c ≠ 49 := fun h => h49 (by rw [h]; rfl)
        simp only [n48, n49, false_and, or_false, iff_false]
        split
        · simp
        · intro h
          have := atoiLoop_ge rest _ 1 (by omega) h
          omega

theorem parseUintLoop_step (n d : Nat) (hcut : ¬ n ≥ (2 ^ 64 - 1) / 10 + 1)
    (hwrap : ¬ ((n * 10 % 2 ^ 64 + d) % 2 ^ 64 < n * 10 % 2 ^ 64
      ∨ (n * 10 % 2 ^ 64 + d) % 2 ^ 64 > 2 ^ 64 - 1)) :
    n * 10 ≤ (n * 10 % 2 ^ 64 + d) % 2 ^ 64 ∧ (n * 10 % 2 ^ 64 + d) % 2 ^ 64 < 2 ^ 64 := by
  have h1 : n * 10 < 2 ^ 64 := by omega
  rw [Nat.mod_eq_of_lt h1] at hwrap ⊢
  have h2 : (n * 10 + d) % 2 ^ 64 < 2 ^ 64 := Nat.mod_lt _ (by norm_num)
  omega

theorem digitVal_lt (c : UInt8) (d : Nat) (h : digitVal c = some d) (hd : ¬ d ≥ 10) :
    48 ≤ c.toNat ∧ c.toNat ≤ 57 ∧ d = c.toNat - 48 := by
  unfold digitVal at h
  split at h
  · rename_i hc
    simp only [Option.some.injEq] at h
    exact ⟨hc.1, hc.2, h.symm⟩
  · split at h
    · simp only [Option.some.injEq] at h
      omega
    · cases h

theorem parseUintLoop_spec : ∀ (s : List UInt8) (n m : Nat) (e : Option NumErr),
    n < 2 ^ 64 → parseUintLoop s n = (m, e) →
      (e = none → n ≤ m ∧ m < 2 ^ 64) ∧ (e = some NumErr.ErrRange → m = 2 ^ 64 - 1)
        ∧ (e = some NumErr.ErrSyntax → m = 0) := by
  intro s
  induction s with
  | nil =>
    intro n m e hn h
    simp only [parseUintLoop, Prod.mk.injEq] at h
    obtain ⟨rfl, rfl⟩ := h
    exact ⟨fun _ => ⟨le_refl _, hn⟩, (fun h => by cases h), (fun h => by cases h)⟩
  | cons c rest ih =>
    intro n m e hn h
    simp only [parseUintLoop] at h
    split at h
    · simp only [Prod.mk.injEq] at h
      obtain ⟨rfl, rfl⟩ := h
      simp
    · split at h
      · simp only [Prod.mk.injEq] at h
        obtain ⟨rfl, rfl⟩ := h
        simp
      · split at h
        · simp only [Prod.mk.injEq] at h
          obtain ⟨rfl, rfl⟩ := h
          simp
        · split at h
          · simp only [Prod.mk.injEq] at h
            obtain ⟨rfl, rfl⟩ := h
            simp
          · rename_i d _ _ hcut hwrap
            obtain ⟨hs1, hs2⟩ := parseUintLoop_step n d hcut hwrap
            obtain ⟨h1, h2, h3⟩ := ih _ m e hs2 h
            refine ⟨fun he => ?_, h2, h3⟩
            obtain ⟨h4, h5⟩ := h1 he
            exact ⟨by omega, h5⟩

theorem parseUintLoop_big (s : List UInt8) (n m : Nat) (h1 : 1 ≤ n) (hn : n < 2 ^ 64)
    (hs : s ≠ []) (h : parseUintLoop s n = (m, none)) : 10 ≤ m := by
  cases s with
  | nil => exact absurd rfl hs
  | cons c rest =>
    simp only [parseUintLoop] at h
    split at h
    · simp at h
    · split at h
      · simp at h
      · split at h
        · simp at h
        · split at h
          · simp at h
          · rename_i d _ _ hcut hwrap
            obtain ⟨hs1, hs2⟩ := parseUintLoop_step n d hcut hwrap
            have := (parseUintLoop_spec rest _ m none hs2 h).1 rfl
            omega

theorem parseUintLoop_one : ∀ s : List UInt8, parseUintLoop s 0 = (1, none) ↔ zerosOne s := by
  intro s
  induction s with
  | nil => simp [parseUintLoop, zerosOne_nil]
  | cons c rest ih =>
    rw [zerosOne_cons]
    have hc := UInt8.toNat_lt c
    by_cases h48 : c.toNat = 48
    · have hc48 : c = 48 := UInt8.ext (by simpa using h48)
      subst hc48
      have hd : digitVal 48 = some 0 := by decide
      have n49 : (48 : UInt8) ≠ 49 := by decide
      simp [parseUintLoop, hd, ih, n49]
    · by_cases h49 : c.toNat = 49
      · have hc49 : c = 49 := UInt8.ext (by simpa using h49)
        subst hc49
        have hd : digitVal 49 = some 1 := by decide
        have n48 : (49 : UInt8) ≠ 48 := by decide
        have : ∀ rest : List UInt8, parseUintLoop rest 1 = (1, none) ↔ rest = [] := by
          intro rest
          constructor
          · intro h
            by_contra hne
            have := parseUintLoop_big rest 1 1 (by omega) (by norm_num) hne h
            omega
          · rintro rfl; rfl
        simp [parseUintLoop, hd, this rest, n48]
      · have n48 : c ≠ 48 := fun h => h48 (by rw [h]; rfl)
        have n49 : c ≠ 49 := fun h => h49 (by rw [h]; rfl)
        simp only [n48, n49, false_and, or_false, iff_false]
        intro h
        simp only [parseUintLoop] at h
        split at h
        · simp at h
        · split at h
          · simp at h
          · split at h
            · simp at h
            · split at h
              · simp at h
              · rename_i d hdv hd10 hcut hwrap
                obtain ⟨hs1, hs2⟩ := parseUintLoop_step 0 d hcut hwrap
                have := (parseUintLoop_spec rest _ 1 none hs2 h).1 rfl
                obtain ⟨d1, d2, d3⟩ := digitVal_lt c d hdv hd10
                omega

theorem spellsOne_cons (c : UInt8) (t : List UInt8) :
    spellsOne (c :: t) ↔ (c = 43 ∧ zerosOne t) ∨ ((c = 48 ∨ c = 49) ∧ zerosOne (c :: t)) := by
  unfold spellsOne
  constructor
  · rintro (h | ⟨t1, h1, h2⟩)
    · right
      refine ⟨?_, h⟩
      rcases (zerosOne_cons c t).1 h with h3 | h3
      · exact Or.inl h3.1
      · exact Or.inr h3.1
    · simp only [List.cons.injEq] at h1
      obtain ⟨rfl, rfl⟩ := h1
      exact Or.inl ⟨rfl, h2⟩
  · rintro (⟨rfl, h⟩ | ⟨-, h⟩)
    · exact Or.inr ⟨t, rfl, h⟩
    · exact Or.inl h

theorem ParseUint_spec (s : List UInt8) :
    ((ParseUint s).2 = none → (ParseUint s).1 < 2 ^ 64)
      ∧ ((ParseUint s).2 = some NumErr.ErrRange → (ParseUint s).1 = 2 ^ 64 - 1) := by
  unfold ParseUint
  cases s with
  | nil => simp
  | cons c t =>
    simp only
    obtain ⟨h1, h2, -⟩ := parseUintLoop_spec (c :: t) 0 _ _ (by norm_num) rfl
    exact ⟨fun h => (h1 h).2, h2⟩

theorem ParseUint_one (s : List UInt8) : ParseUint s = (1, none) ↔ zerosOne s := by
  unfold ParseUint
  cases s with
  | nil => simp [zerosOne_nil]
  | cons c t => exact parseUintLoop_one (c :: t)

theorem ParseInt_branch (neg : Bool) (r : Nat × Option NumErr)
    (h1 : r.2 = none → r.1 < 2 ^ 64) (h2 : r.2 = some NumErr.ErrRange → r.1 = 2 ^ 64 - 1) :
    (if r.2 = some NumErr.ErrSyntax then ((0 : Int), r.2)
      else if neg = false ∧ r.1 ≥ 2 ^ (intSize - 1) then
        (((2 ^ (intSize - 1) - 1 : Nat) : Int), some NumErr.ErrRange)
      else if neg = true ∧ r.1 > 2 ^ (intSize - 1) then
        (-((2 ^ (intSize - 1) : Nat) : Int), some NumErr.ErrRange)
      else (if neg then negInt64 (toInt64 r.1) else toInt64 r.1, none)) = (1, none)
      ↔ neg = false ∧ r = (1, none) := by
  obtain ⟨u, e⟩ := r
  simp only at h1 h2 ⊢
  have hsz : intSize - 1 = 63 := rfl
  rw [hsz]
  by_cases hs : e = some NumErr.ErrSyntax
  · subst hs; simp
  rw [if_neg hs]
  by_cases hp : neg = false ∧ u ≥ 2 ^ 63
  · rw [if_pos hp]
    constructor
    · intro h; simp at h
    · rintro ⟨-, h⟩
      simp only [Prod.mk.injEq] at h
      omega
  rw [if_neg hp]
  by_cases hn : neg = true ∧ u > 2 ^ 63
  · rw [if_pos hn]
    constructor
    · intro h; simp at h
    · rintro ⟨h, -⟩
      rw [hn.1] at h
      cases h
  rw [if_neg hn]
  have he : e = none := by
    cases e with
    | none => rfl
    | some k =>
      cases k with
      | ErrSyntax => exact absurd rfl hs
      | ErrRange =>
        have := h2 rfl
        cases neg with
        | false => exact absurd ⟨rfl, by omega⟩ hp
        | true => exact absurd ⟨rfl, by omega⟩ hn
  subst he
  have hu := h1 rfl
  cases neg with
  | false =>
    have hu2 : u < 2 ^ 63 := by
      by_contra hc
      exact hp ⟨rfl, by omega⟩
    simp only [Bool.false_eq_true, if_false, toInt64, Prod.mk.injEq, and_true, true_and]
    rw [Nat.mod_eq_of_lt hu, if_pos hu2]
    omega
  | true =>
    have hu2 : u ≤ 2 ^ 63 := by
      by_contra hc
      exact hn ⟨rfl, by omega⟩
    simp only [if_true, toInt64, negInt64, Prod.mk.injEq, and_true, Bool.true_eq_false,
      false_and, iff_false]
    rw [Nat.mod_eq_of_lt hu]
    split <;> omega

theorem ParseInt_one (s : List UInt8) : ParseInt s = (1, none) ↔ spellsOne s := by
  cases s with
  | nil =>
    simp only [ParseInt, spellsOne, zerosOne_nil, false_or]
    constructor
    · intro h; simp at h
    · rintro ⟨t, h, -⟩; cases h
  | cons c0 t =>
    rw [spellsOne_cons]
    have hbr := ParseInt_branch (c0 == 45)
      (ParseUint (if c0 == 43 then t else if c0 == 45 then t else c0 :: t))
      (ParseUint_spec _).1 (ParseUint_spec _).2
    change ParseInt (c0 :: t) = (1, none) ↔ _ at hbr
    rw [hbr]
    by_cases h43 : c0 = 43
    · subst h43
      have n48 : (43 : UInt8) ≠ 48 := by decide
      have n49 : (43 : UInt8) ≠ 49 := by decide
      have hb : ((43 : UInt8) == 45) = false := by decide
      simp [n48, n49, hb, ParseUint_one]
    · by_cases h45 : c0 = 45
      · subst h45
        have n43 : (45 : UInt8) ≠ 43 := by decide
        have n48 : (45 : UInt8) ≠ 48 := by decide
        have n49 : (45 : UInt8) ≠ 49 := by decide
        simp [n43, n48, n49]
      · have hb1 : (c0 == 43) = false := by simpa using h43
        have hb2 : (c0 == 45) = false := by simpa using h45
        simp only [hb1, hb2, Bool.false_eq_true, if_false, true_and, ParseUint_one, h43,
          false_and, false_or]
        constructor
        · intro h
          refine ⟨?_, h⟩
          rcases (zerosOne_cons c0 t).1 h with h3 | h3
          · exact Or.inl h3.1
          · exact Or.inr h3.1
        · exact fun h => h.2

theorem AtoiBytes_one (s : List UInt8) : AtoiBytes s = (1, none) ↔ spellsOne s := by
  unfold AtoiBytes
  by_cases hlen : 0 < s.length ∧ s.length < 19
  · rw [if_pos hlen]
    cases s with
    | nil => simp at hlen
    | cons c0 t =>
      rw [spellsOne_cons]
      simp only [List.head?_cons, List.tail_cons]
      by_cases h45 : c0 = 45
      · subst h45
        have n43 : (45 : UInt8) ≠ 43 := by decide
        have n48 : (45 : UInt8) ≠ 48 := by decide
        have n49 : (45 : UInt8) ≠ 49 := by decide
        simp only [beq_self_eq_true, Bool.true_or, if_true, true_and, n43, n48, n49, false_and,
          or_self, iff_false]
        split
        · simp
        · cases hl : atoiLoop t 0 with
          | none => simp
          | some n =>
            have := atoiLoop_ge t 0 n (le_refl _) hl
            simp only [Prod.mk.injEq, and_true]
            omega
      · have hb45 : (some c0 == some (45 : UInt8)) = false := by simpa using h45
        by_cases h43 : c0 = 43
        · subst h43
          have n48 : (43 : UInt8) ≠ 48 := by decide
          have n49 : (43 : UInt8) ≠ 49 := by decide
          simp only [hb45, beq_self_eq_true, Bool.or_true, if_true, true_and, n48, n49,
            or_self, false_and, or_false, Bool.false_eq_true, if_false]
          split
          · rename_i hz
            have : t = [] := List.length_eq_zero.1 (by omega)
            subst this
            simp [zerosOne_nil]
          · rw [← atoiLoop_one]
            cases hl : atoiLoop t 0 with
            | none => simp
            | some n => simp
        · have hb43 : (some c0 == some (43 : UInt8)) = false := by simpa using h43
          simp only [hb45, hb43, Bool.or_self, Bool.false_eq_true, false_and, if_false, h43,
            false_or]
          rw [← atoiLoop_one]
          constructor
          · intro h
            have h1 : atoiLoop (c0 :: t) 0 = some 1 := by
              cases hl : atoiLoop (c0 :: t) 0 with
              | none => rw [hl] at h; simp at h
              | some n => rw [hl] at h; simpa using h
            refine ⟨?_, h1⟩
            rcases (zerosOne_cons c0 t).1 ((atoiLoop_one _).1 h1) with h3 | h3
            · exact Or.inl h3.1
            · exact Or.inr h3.1
          · rintro ⟨-, h⟩
            rw [h]
  · rw [if_neg hlen]
    exact ParseInt_one s

/-- Go `strconv.Atoi` returns one exactly on the strings that spell it. -/
theorem Atoi_one (s : String) : Atoi s = (1, none) ↔ spellsOne (bytes s) :=
  AtoiBytes_one (bytes s)

theorem trimSpaceStop_ascii : ∀ r : List UInt8, (∀ c ∈ r, c < 0x80) →
    trimSpaceStop r = (r.dropWhile asciiSpace).reverse := by
  intro r
  induction r with
  | nil => intro _; rfl
  | cons c rest ih =>
    intro h
    have hc : ¬ c ≥ 0x80 := by
      have := h c (List.mem_cons_self _ _)
      exact UInt8.not_le.2 this
    simp only [trimSpaceStop, if_neg hc]
    cases hs : asciiSpace c with
    | true =>
      simp only [if_true, List.dropWhile_cons, hs]
      exact ih fun x hx => h x (List.mem_cons_of_mem _ hx)
    | false => simp [List.dropWhile_cons, hs]

theorem TrimSpace_ascii : ∀ s : List UInt8, (∀ c ∈ s, c < 0x80) → TrimSpace s = trimAscii s := by
  intro s
  unfold TrimSpace
  induction s with
  | nil => intro _; rfl
  | cons c rest ih =>
    intro h
    have hc : ¬ c ≥ 0x80 := by
      have := h c (List.mem_cons_self _ _)
      exact UInt8.not_le.2 this
    simp only [trimSpaceStart, if_neg hc]
    cases hs : asciiSpace c with
    | true =>
      simp only [if_true, trimAscii, List.dropWhile_cons, hs]
      exact ih fun x hx => h x (List.mem_cons_of_mem _ hx)
    | false =>
      simp only [Bool.false_eq_true, if_false, trimAscii, List.dropWhile_cons, hs]
      rw [trimSpaceStop_ascii]
      intro x hx
      exact h x (List.mem_reverse.1 hx)

theorem dropWhile_append_of_all (p : UInt8 → Bool) :
    ∀ (pre rest : List UInt8), (∀ c ∈ pre, p c = true) →
      (pre ++ rest).dropWhile p = rest.dropWhile p := by
  intro pre
  induction pre with
  | nil => intro rest _; rfl
  | cons c pre ih =>
    intro rest h
    simp only [List.cons_append, List.dropWhile_cons, h c (List.mem_cons_self _ _), if_true]
    exact ih rest fun x hx => h x (List.mem_cons_of_mem _ hx)

/-- On ASCII input the trimmed text is `true` exactly when the input is `true` between
two runs of ASCII white space. -/
theorem trimAscii_true (s : List UInt8) :
    trimAscii s = [0x74, 0x72, 0x75, 0x65] ↔
      ∃ pre post, s = pre ++ [0x74, 0x72, 0x75, 0x65] ++ post
        ∧ (∀ c ∈ pre, asciiSpace c = true) ∧ (∀ c ∈ post, asciiSpace c = true) := by
  constructor
  · intro h
    have h1 := List.takeWhile_append_dropWhile asciiSpace s
    have h2 := List.takeWhile_append_dropWhile asciiSpace (s.dropWhile asciiSpace).reverse
    unfold trimAscii at h
    have h3 : (s.dropWhile asciiSpace).reverse.dropWhile asciiSpace
        = [0x65, 0x75, 0x72, 0x74] := by
      have := congrArg List.reverse h
      simpa using this
    rw [h3] at h2
    have h4 : s.dropWhile asciiSpace = [0x74, 0x72, 0x75, 0x65]
        ++ ((s.dropWhile asciiSpace).reverse.takeWhile asciiSpace).reverse := by
      have := congrArg List.reverse h2
      simpa using this.symm
    refine ⟨s.takeWhile asciiSpace,
      ((s.dropWhile asciiSpace).reverse.takeWhile asciiSpace).reverse, ?_, ?_, ?_⟩
    · rw [List.append_assoc, ← h4, h1]
    · intro c hc
      exact List.mem_takeWhile_imp hc
    · intro c hc
      exact List.mem_takeWhile_imp (List.mem_reverse.1 hc)
  · rintro ⟨pre, post, rfl, hpre, hpost⟩
    unfold trimAscii
    rw [List.append_assoc, dropWhile_append_of_all asciiSpace pre _ hpre]
    have h1 : ([0x74, 0x72, 0x75, 0x65] ++ post : List UInt8).dropWhile asciiSpace
        = [0x74, 0x72, 0x75, 0x65] ++ post := by
      have : asciiSpace 0x74 = false := by decide
      simp [List.dropWhile_cons, this]
    rw [h1, List.reverse_append,
      dropWhile_append_of_all asciiSpace post.reverse _
        (fun c hc => hpost c (List.mem_reverse.1 hc))]
    have : asciiSpace 0x65 = false := by decide
    simp [List.dropWhile_cons, this]

/-! ## The claims -/

/-- C1: if `git status --porcelain` fails or succeeds with non-empty output, the one
value `PullIfClean` sends has state `Skipped` and `git status` is the only subprocess
run; `git pull --ff-only` is run, in any directory, if and only if the status command
succeeded with empty output. -/
theorem PullIfClean_skip (sys : Sys) (lg : Bool) (root : String) :
    (((sys.CombinedOutput root statusCmd).err ≠ none
        ∨ (sys.CombinedOutput root statusCmd).out ≠ []) →
      sends (PullIfClean sys lg root) = [{ Path := root, State := Skipped }]
        ∧ execs (PullIfClean sys lg root) = [(root, statusCmd)]
        ∧ ∀ dir, (dir, pullCmd) ∉ execs (PullIfClean sys lg root))
    ∧ ((∃ dir, (dir, pullCmd) ∈ execs (PullIfClean sys lg root)) ↔
        (sys.CombinedOutput root statusCmd).err = none
          ∧ (sys.CombinedOutput root statusCmd).out = []) := by
  have hne : statusCmd ≠ pullCmd := by decide
  rw [PullIfClean_sends, PullIfClean_execs]
  by_cases h : (sys.CombinedOutput root statusCmd).err = none
      ∧ (sys.CombinedOutput root statusCmd).out = []
  · refine ⟨fun h1 => ?_, ?_⟩
    · rcases h1 with h1 | h1
      · exact absurd h.1 h1
      · exact absurd h.2 h1
    · rw [if_pos h]
      exact ⟨fun _ => h, fun _ => ⟨root, by simp⟩⟩
  · refine ⟨fun _ => ?_, ?_⟩
    · rw [if_neg h]
      refine ⟨by simp [sentState, h], rfl, ?_⟩
      intro dir hd
      simp at hd
      exact hne hd.2.symm
    · rw [if_neg h]
      constructor
      · rintro ⟨dir, hd⟩
        simp at hd
        exact absurd hd.2.symm hne
      · intro h1; exact absurd h1 h

/-- Instance of C1 on the dirty repository of the example system. -/
theorem PullIfClean_skip_witness :
    sends (PullIfClean exampleSys true "/w/repoB") = [{ Path := "/w/repoB", State := Skipped }]
      ∧ execs (PullIfClean exampleSys true "/w/repoB") = [("/w/repoB", statusCmd)] :=
  have h := (PullIfClean_skip exampleSys true "/w/repoB").1 (Or.inr (by decide))
  ⟨h.1, h.2.1⟩

/-- C2: when the status command succeeds with empty output, the one value `PullIfClean`
sends has state `Updated` if the pull command returns no error and `PullFailed` if it
returns one; replacing the output of the pull command by any other bytes changes
nothing in what is sent. -/
theorem PullIfClean_pull (sys : Sys) (lg : Bool) (root : String)
    (herr : (sys.CombinedOutput root statusCmd).err = none)
    (hout : (sys.CombinedOutput root statusCmd).out = []) :
    ((sys.CombinedOutput root pullCmd).err = none →
        sends (PullIfClean sys lg root) = [{ Path := root, State := Updated }])
      ∧ ((sys.CombinedOutput root pullCmd).err ≠ none →
        sends (PullIfClean sys lg root) = [{ Path := root, State := PullFailed }])
      ∧ ∀ out1 : List UInt8,
          sends (PullIfClean
            { sys with
              CombinedOutput := fun dir argv =>
                if dir = root ∧ argv = pullCmd then
                  { out := out1, err := (sys.CombinedOutput root pullCmd).err }
                else sys.CombinedOutput dir argv } lg root)
            = sends (PullIfClean sys lg root) := by
  have hne : statusCmd ≠ pullCmd := by decide
  refine ⟨fun hp => ?_, fun hp => ?_, fun out1 => ?_⟩
  · rw [PullIfClean_sends]; simp [sentState, herr, hout, hp]
  · rw [PullIfClean_sends]; simp [sentState, herr, hout, hp]
  · rw [PullIfClean_sends, PullIfClean_sends]
    simp [sentState, hne]

/-- Instance of C2 on the clean repository of the example system. -/
theorem PullIfClean_pull_witness :
    sends (PullIfClean exampleSys true "/w/repoA") = [{ Path := "/w/repoA", State := Updated }] :=
  (PullIfClean_pull exampleSys true "/w/repoA" (by decide) (by decide)).1 (by decide)

/-- C3: `IsRepository` returns true if and only if the `git rev-parse` command returned
no error and its output, trimmed by `bytes.TrimSpace`, is the four bytes `true`
(0x74 0x72 0x75 0x65); with an error the result is false whatever the output.  For an
output of ASCII bytes this means: `true` between two runs of ASCII white space.  The
result is a plain boolean: there is no error value to hand to the caller. -/
theorem IsRepository_iff (sys : Sys) (lg : Bool) (root : String) :
    ((IsRepository sys lg root).2 = true ↔
        (sys.CombinedOutput root revParseCmd).err = none
          ∧ TrimSpace (sys.CombinedOutput root revParseCmd).out = [0x74, 0x72, 0x75, 0x65])
      ∧ ((sys.CombinedOutput root revParseCmd).err ≠ none →
          (IsRepository sys lg root).2 = false)
      ∧ ((∀ c ∈ (sys.CombinedOutput root revParseCmd).out, c < 0x80) →
          ((IsRepository sys lg root).2 = true ↔
            (sys.CombinedOutput root revParseCmd).err = none
              ∧ ∃ pre post,
                  (sys.CombinedOutput root revParseCmd).out
                    = pre ++ [0x74, 0x72, 0x75, 0x65] ++ post
                  ∧ (∀ c ∈ pre, asciiSpace c = true) ∧ (∀ c ∈ post, asciiSpace c = true))) := by
  have hb : bytes "true" = [0x74, 0x72, 0x75, 0x65] := by decide
  have hiff : (IsRepository sys lg root).2 = true ↔
      (sys.CombinedOutput root revParseCmd).err = none
        ∧ TrimSpace (sys.CombinedOutput root revParseCmd).out = [0x74, 0x72, 0x75, 0x65] := by
    rw [IsRepository_snd, hb]
    simp [Equal]
  refine ⟨hiff, ?_, ?_⟩
  · intro h
    rw [IsRepository_snd]
    simp [h]
  · intro hascii
    rw [hiff, TrimSpace_ascii _ hascii, trimAscii_true]

/-- Instance of C3 on the example system: the output `true` and a newline passes, a
failed command does not. -/
theorem IsRepository_iff_witness :
    (IsRepository exampleSys true "/w/repoA").2 = true
      ∧ (IsRepository exampleSys true "/w/notes").2 = false :=
  ⟨(IsRepository_iff exampleSys true "/w/repoA").1.2 ⟨by decide, by decide⟩,
   (IsRepository_iff exampleSys true "/w/notes").2.1 (by decide)⟩

/-- C4: when the listing of the root succeeds, the number of values `main` receives and
the number of rows it writes both equal the number of listed entries that are
directories and pass the probe; the paths of the values received are, up to order, the
paths of exactly those entries, one value each, so that files and directories failing the
probe contribute none; one worker is started per such entry and each sends once. -/
theorem main_outcome_count (sys : Sys) (sched : Nat → Nat) (lg : Bool) (entries : List DirEntry)
    (h : sys.ReadDir (rootArg sys) = Except.ok entries) :
    (received (main sys sched).trace).length =
        (entries.filter (qualifies sys lg (rootArg sys))).length
      ∧ (rows (main sys sched).trace).length =
        (entries.filter (qualifies sys lg (rootArg sys))).length
      ∧ ((received (main sys sched).trace).map Result.Path).Perm
          ((entries.filter (qualifies sys lg (rootArg sys))).map
            (fun e => sys.Join (rootArg sys) e.Name))
      ∧ (main sys sched).workers.length =
        (entries.filter (qualifies sys lg (rootArg sys))).length
      ∧ ∀ w ∈ (main sys sched).workers, (sends w).length = 1 := by
  obtain ⟨-, -, hrecv, hrows, -, hw⟩ := main_ok sys sched entries h
  have hq : qualifies sys (initLogger sys).2 (rootArg sys) = qualifies sys lg (rootArg sys) :=
    funext fun e => qualifies_lg sys _ lg (rootArg sys) e
  rw [hq] at hrecv hw
  have hlen := hrecv.length_eq
  simp only [List.length_map] at hlen
  refine ⟨hlen, ?_, ?_, ?_, ?_⟩
  · rw [hrows, List.length_map, hlen]
  · have := hrecv.map Result.Path
    simpa [Function.comp_def] using this
  · rw [hw]; simp
  · intro w hmem
    rw [hw] at hmem
    simp only [List.mem_map] at hmem
    obtain ⟨path, -, rfl⟩ := hmem
    rw [PullIfClean_sends]
    rfl

/-- Instance of C4 on the example system: four entries, two outcomes. -/
theorem main_outcome_count_witness :
    (received (main exampleSys firstReady).trace).length = 2
      ∧ (rows (main exampleSys firstReady).trace).length = 2 :=
  have h := main_outcome_count exampleSys firstReady true
    [⟨"f.txt", false⟩, ⟨"notes", true⟩, ⟨"repoA", true⟩, ⟨"repoB", true⟩] rfl
  ⟨h.1.trans (by decide), h.2.1.trans (by decide)⟩

/-- C5: `RepositoryState.String` maps `Updated` to `updated`, `Skipped` to
`skipped (dirty)`, `PullFailed` to `pull failed` and every other integer, negative ones
included, to `?`; the three labels are pairwise distinct and none of them is `?`. -/
theorem String_labels :
    RepositoryState.String Updated = "updated"
      ∧ RepositoryState.String Skipped = "skipped (dirty)"
      ∧ RepositoryState.String PullFailed = "pull failed"
      ∧ (∀ rs : RepositoryState, rs ≠ Updated → rs ≠ Skipped → rs ≠ PullFailed →
          RepositoryState.String rs = "?")
      ∧ RepositoryState.String Updated ≠ RepositoryState.String Skipped
      ∧ RepositoryState.String Updated ≠ RepositoryState.String PullFailed
      ∧ RepositoryState.String Skipped ≠ RepositoryState.String PullFailed
      ∧ RepositoryState.String Updated ≠ "?"
      ∧ RepositoryState.String Skipped ≠ "?"
      ∧ RepositoryState.String PullFailed ≠ "?" := by
  refine ⟨rfl, rfl, rfl, ?_, by decide, by decide, by decide, by decide, by decide, by decide⟩
  intro rs h0 h1 h2
  simp only [Updated, Skipped, PullFailed] at h0 h1 h2
  rw [String_cases, if_neg h0, if_neg h1, if_neg h2]

/-- Instance of C5 at a negative and at a large state value. -/
theorem String_labels_witness :
    RepositoryState.String (-1) = "?" ∧ RepositoryState.String 3 = "?" :=
  ⟨String_labels.2.2.2.1 (-1) (by decide) (by decide) (by decide),
   String_labels.2.2.2.1 3 (by decide) (by decide) (by decide)⟩

/-- C6: whatever the status and pull commands return, `PullIfClean` performs exactly
one send, it is the last thing it does, and the value sent carries the path
`PullIfClean` was called with. -/
theorem PullIfClean_one_send (sys : Sys) (lg : Bool) (root : String) :
    (sends (PullIfClean sys lg root)).length = 1
      ∧ (sends (PullIfClean sys lg root)).map Result.Path = [root]
      ∧ ∃ pre st, PullIfClean sys lg root = pre ++ [Event.send { Path := root, State := st }]
          ∧ sends pre = [] := by
  refine ⟨by rw [PullIfClean_sends]; rfl, by rw [PullIfClean_sends]; rfl, ?_⟩
  unfold PullIfClean
  cases h : (sys.CombinedOutput root statusCmd).err with
  | some e =>
    simp only [h]
    exact ⟨_, _, rfl, by simp [sends_append, sends]⟩
  | none =>
    cases ho : (sys.CombinedOutput root statusCmd).out with
    | cons b t =>
      simp only [h, ho, List.length_cons, ne_eq, Nat.add_one_ne_zero, not_false_eq_true, if_true]
      exact ⟨_, _, rfl, by simp [sends_append, sends]⟩
    | nil =>
      cases hp : (sys.CombinedOutput root pullCmd).err with
      | some e =>
        simp only [h, ho, hp, List.length_nil, ne_eq, not_true_eq_false, if_false]
        exact ⟨_, _, rfl, by simp [sends_append, sends]⟩
      | none =>
        simp only [h, ho, hp, List.length_nil, ne_eq, not_true_eq_false, if_false]
        exact ⟨_, _, rfl, by simp [sends_append, sends]⟩

/-- C7: the root lists, in any order, the directories `repoA`, `repoB` and `notes`;
`repoA` passes the probe, its status command succeeds with empty output and its pull
succeeds; `repoB` passes the probe and its status output is not empty; `notes` fails
the probe.  Then, under every schedule, the report consists of exactly two rows, the
path of `repoA` with `updated` and the path of `repoB` with `skipped (dirty)`, in either
order, and no value received carries the path of `notes`. -/
theorem main_scenario (sys : Sys) (sched : Nat → Nat) (lg : Bool) (entries : List DirEntry)
    (hlist : sys.ReadDir (rootArg sys) = Except.ok entries)
    (hperm : entries.Perm [⟨"repoA", true⟩, ⟨"repoB", true⟩, ⟨"notes", true⟩])
    (hA : (IsRepository sys lg (sys.Join (rootArg sys) "repoA")).2 = true)
    (hAerr : (sys.CombinedOutput (sys.Join (rootArg sys) "repoA") statusCmd).err = none)
    (hAout : (sys.CombinedOutput (sys.Join (rootArg sys) "repoA") statusCmd).out = [])
    (hApull : (sys.CombinedOutput (sys.Join (rootArg sys) "repoA") pullCmd).err = none)
    (hB : (IsRepository sys lg (sys.Join (rootArg sys) "repoB")).2 = true)
    (hBout : (sys.CombinedOutput (sys.Join (rootArg sys) "repoB") statusCmd).out ≠ [])
    (hN : (IsRepository sys lg (sys.Join (rootArg sys) "notes")).2 = false) :
    (main sys sched).status = Status.exited
      ∧ (rows (main sys sched).trace).Perm
          [sys.Join (rootArg sys) "repoA" ++ "\tupdated\n",
           sys.Join (rootArg sys) "repoB" ++ "\tskipped (dirty)\n"]
      ∧ (rows (main sys sched).trace).length = 2
      ∧ (received (main sys sched).trace).Perm
          [{ Path := sys.Join (rootArg sys) "repoA", State := Updated },
           { Path := sys.Join (rootArg sys) "repoB", State := Skipped }]
      ∧ ∀ r ∈ received (main sys sched).trace, r.Path ≠ sys.Join (rootArg sys) "notes" := by
  obtain ⟨hst, -, hrecv, hrows, -, -⟩ := main_ok sys sched entries hlist
  have hq : qualifies sys (initLogger sys).2 (rootArg sys) = qualifies sys lg (rootArg sys) :=
    funext fun e => qualifies_lg sys _ lg (rootArg sys) e
  rw [hq] at hrecv
  have hf : (entries.filter (qualifies sys lg (rootArg sys))).Perm
      [⟨"repoA", true⟩, ⟨"repoB", true⟩] := by
    have := hperm.filter (qualifies sys lg (rootArg sys))
    simpa [List.filter, qualifies, hA, hB, hN] using this
  have hsA : sentState sys (sys.Join (rootArg sys) "repoA") = Updated := by
    simp [sentState, hAerr, hAout, hApull]
  have hsB : sentState sys (sys.Join (rootArg sys) "repoB") = Skipped := by
    simp [sentState, hBout]
  have hr : (received (main sys sched).trace).Perm
      [{ Path := sys.Join (rootArg sys) "repoA", State := Updated },
       { Path := sys.Join (rootArg sys) "repoB", State := Skipped }] := by
    refine hrecv.trans ?_
    have := (hf.map (fun e => sys.Join (rootArg sys) e.Name)).map
      (fun path => ({ Path := path, State := sentState sys path } : Result))
    simpa [hsA, hsB] using this
  have hrw : (rows (main sys sched).trace).Perm
      [sys.Join (rootArg sys) "repoA" ++ "\tupdated\n",
       sys.Join (rootArg sys) "repoB" ++ "\tskipped (dirty)\n"] := by
    rw [hrows]
    have := hr.map rowText
    simpa [rowText_Updated, rowText_Skipped] using this
  refine ⟨hst, hrw, by simpa using hrw.length_eq, hr, ?_⟩
  intro r hmem heq
  have hm := hr.subset hmem
  simp only [List.mem_cons, List.mem_singleton, List.mem_nil_iff, or_false] at hm
  rcases hm with rfl | rfl
  · simp only at heq
    rw [heq, hN] at hA
    exact Bool.noConfusion hA
  · simp only at heq
    rw [heq, hN] at hB
    exact Bool.noConfusion hB

/-- Instance of C7: the root of `scenarioSys` lists exactly the three directories. -/
theorem main_scenario_witness :
    (rows (main scenarioSys secondReady).trace).Perm
      ["/w/repoA\tupdated\n", "/w/repoB\tskipped (dirty)\n"] :=
  (main_scenario scenarioSys secondReady true
      [⟨"notes", true⟩, ⟨"repoA", true⟩, ⟨"repoB", true⟩] rfl
      (by decide) (by decide) (by decide) (by decide) (by decide) (by decide) (by decide)
      (by decide)).2.1

/-- C8: the run ends in a panic if and only if listing the root fails.  When the listing
fails, `main` panics with that error having run no subprocess, started no worker,
received nothing, written no row and not flushed the table.  When the listing succeeds,
`main` returns, whatever the commands report: it never blocks on the channel, it has
written one row per worker, and its last step is the flush of the table. -/
theorem main_abort_iff (sys : Sys) (sched : Nat → Nat) :
    (∀ err, sys.ReadDir (rootArg sys) = Except.error err →
        (main sys sched).status = Status.panicked err
          ∧ execs (main sys sched).trace = []
          ∧ spawns (main sys sched).trace = []
          ∧ (main sys sched).workers = []
          ∧ received (main sys sched).trace = []
          ∧ rows (main sys sched).trace = []
          ∧ Event.flush ∉ (main sys sched).trace)
      ∧ (∀ entries, sys.ReadDir (rootArg sys) = Except.ok entries →
        (main sys sched).status = Status.exited
          ∧ (∃ pre, (main sys sched).trace = pre ++ [Event.flush])
          ∧ (rows (main sys sched).trace).length = (main sys sched).workers.length)
      ∧ ((∃ err, (main sys sched).status = Status.panicked err) ↔
          ∃ err, sys.ReadDir (rootArg sys) = Except.error err)
      ∧ ((main sys sched).status = Status.exited ↔
          ∃ entries, sys.ReadDir (rootArg sys) = Except.ok entries)
      ∧ (main sys sched).status ≠ Status.blocked := by
  have hfail : ∀ err, sys.ReadDir (rootArg sys) = Except.error err →
        (main sys sched).status = Status.panicked err
          ∧ execs (main sys sched).trace = []
          ∧ spawns (main sys sched).trace = []
          ∧ (main sys sched).workers = []
          ∧ received (main sys sched).trace = []
          ∧ rows (main sys sched).trace = []
          ∧ Event.flush ∉ (main sys sched).trace := by
    intro err h
    obtain ⟨h1, h2, h3⟩ := main_panic sys sched err h
    obtain ⟨l1, l2, l3, l4⟩ := initLogger_fst sys
    rw [h2]
    exact ⟨h1, l4, l3, h3, l1, l2, flush_not_mem_initLogger sys⟩
  have hok : ∀ entries, sys.ReadDir (rootArg sys) = Except.ok entries →
        (main sys sched).status = Status.exited
          ∧ (∃ pre, (main sys sched).trace = pre ++ [Event.flush])
          ∧ (rows (main sys sched).trace).length = (main sys sched).workers.length := by
    intro entries h
    obtain ⟨h1, h2, h3, h4, -, h6⟩ := main_ok sys sched entries h
    refine ⟨h1, h2, ?_⟩
    rw [h4, h6, List.length_map, h3.length_eq]
    simp
  refine ⟨hfail, hok, ?_, ?_, ?_⟩
  · constructor
    · rintro ⟨err, he⟩
      cases hr : sys.ReadDir (rootArg sys) with
      | error e => exact ⟨e, rfl⟩
      | ok entries =>
        rw [(hok entries hr).1] at he
        cases he
    · rintro ⟨err, he⟩
      exact ⟨err, (hfail err he).1⟩
  · constructor
    · intro he
      cases hr : sys.ReadDir (rootArg sys) with
      | error e =>
        rw [(hfail e hr).1] at he
        cases he
      | ok entries => exact ⟨entries, rfl⟩
    · rintro ⟨entries, he⟩
      exact (hok entries he).1
  · cases hr : sys.ReadDir (rootArg sys) with
    | error e => rw [(hfail e hr).1]; simp
    | ok entries => rw [(hok entries hr).1]; simp

/-- Instance of C8: the example system returns; started on a root that cannot be
listed it panics without a row. -/
theorem main_abort_iff_witness :
    (main exampleSys firstReady).status = Status.exited
      ∧ (main unlistedSys firstReady).status = Status.panicked "no such file or directory"
      ∧ rows (main unlistedSys firstReady).trace = [] :=
  ⟨((main_abort_iff exampleSys firstReady).2.1 _ rfl).1,
   ((main_abort_iff unlistedSys firstReady).1 _ rfl).1,
   ((main_abort_iff unlistedSys firstReady).1 _ rfl).2.2.2.2.2.1⟩

/-- C9: after `initLogger` the debug handler is installed if and only if
`strconv.Atoi` applied to the value of `DEBUG` returns the integer 1 without error,
that is if and only if the value is an optional `+`, any number of `0` and a final `1`.
An absent or empty variable, a value `Atoi` rejects and a value that parses to another
integer all leave the handler uninstalled, and `slog.Debug` writes a record exactly
when the handler is installed. -/
theorem initLogger_enabled_iff (sys : Sys) :
    ((initLogger sys).2 = true ↔ Atoi (sys.Getenv "DEBUG") = (1, none))
      ∧ ((initLogger sys).2 = true ↔ spellsOne (bytes (sys.Getenv "DEBUG")))
      ∧ (sys.Getenv "DEBUG" = "" → (initLogger sys).2 = false)
      ∧ (∀ e, (Atoi (sys.Getenv "DEBUG")).2 = some e → (initLogger sys).2 = false)
      ∧ (∀ n : Int, n ≠ 1 → (Atoi (sys.Getenv "DEBUG")).1 = n → (initLogger sys).2 = false)
      ∧ ∀ msg, slogDebug (initLogger sys).2 msg =
          if Atoi (sys.Getenv "DEBUG") = (1, none) then [Event.debug msg] else [] := by
  have hval : (initLogger sys).2 = true ↔ (Atoi (sys.Getenv "DEBUG")).1 = 1 := by
    unfold initLogger
    by_cases hd : (Atoi (sys.Getenv "DEBUG")).1 = 1
    · simp [hd]
    · simp [hd]
  have h1 : (initLogger sys).2 = true ↔ Atoi (sys.Getenv "DEBUG") = (1, none) :=
    hval.trans (Atoi_one_iff _)
  have hoff : (Atoi (sys.Getenv "DEBUG")).1 ≠ 1 → (initLogger sys).2 = false := by
    intro h
    cases hb : (initLogger sys).2 with
    | false => rfl
    | true => exact absurd (hval.1 hb) h
  refine ⟨h1, h1.trans (Atoi_one _), ?_, ?_, ?_, ?_⟩
  · intro he
    apply hoff
    rw [he]
    decide
  · intro e he
    exact hoff (AtoiBytes_err _ e he)
  · intro n hn he
    apply hoff
    rw [he]
    exact hn
  · intro msg
    by_cases hA : Atoi (sys.Getenv "DEBUG") = (1, none)
    · rw [if_pos hA, h1.2 hA]; rfl
    · rw [if_neg hA]
      cases hb : (initLogger sys).2 with
      | false => rfl
      | true => exact absurd (h1.1 hb) hA

/-- Instance of C9: `DEBUG=1` installs the handler, an unset `DEBUG` does not. -/
theorem initLogger_enabled_iff_witness :
    (initLogger exampleSys).2 = true ∧ (initLogger unsetSys).2 = false :=
  ⟨(initLogger_enabled_iff exampleSys).1.2 (by decide),
   (initLogger_enabled_iff unsetSys).2.2.1 rfl⟩

/-- C10: every value `PullIfClean` sends, and so every value `main` receives, has state
`Updated`, `Skipped` or `PullFailed`; every row of the report is the path, a tab, one of
the three labels and a newline, so the label `?` is never written. -/
theorem main_no_fallback (sys : Sys) (sched : Nat → Nat) :
    (∀ (lg : Bool) (root : String), ∀ r ∈ sends (PullIfClean sys lg root),
        r.State = Updated ∨ r.State = Skipped ∨ r.State = PullFailed)
      ∧ (∀ r ∈ received (main sys sched).trace,
        (r.State = Updated ∨ r.State = Skipped ∨ r.State = PullFailed)
          ∧ RepositoryState.String r.State ≠ "?")
      ∧ ∀ text ∈ rows (main sys sched).trace,
        ∃ (path label : String), text = path ++ "\t" ++ label ++ "\n"
          ∧ (label = "updated" ∨ label = "skipped (dirty)" ∨ label = "pull failed")
          ∧ label ≠ "?" := by
  have hlabel : ∀ st : RepositoryState, (st = Updated ∨ st = Skipped ∨ st = PullFailed) →
      (RepositoryState.String st = "updated" ∨ RepositoryState.String st = "skipped (dirty)"
        ∨ RepositoryState.String st = "pull failed") ∧ RepositoryState.String st ≠ "?" := by
    intro st h
    rcases h with rfl | rfl | rfl
    · exact ⟨Or.inl rfl, by decide⟩
    · exact ⟨Or.inr (Or.inl rfl), by decide⟩
    · exact ⟨Or.inr (Or.inr rfl), by decide⟩
  have hrecv : ∀ r ∈ received (main sys sched).trace,
      r.State = Updated ∨ r.State = Skipped ∨ r.State = PullFailed := by
    intro r hmem
    cases hr : sys.ReadDir (rootArg sys) with
    | error e =>
      rw [(main_panic sys sched e hr).2.1, (initLogger_fst sys).1] at hmem
      cases hmem
    | ok entries =>
      have hp := ((main_ok sys sched entries hr).2.2.1).subset hmem
      simp only [List.mem_map] at hp
      obtain ⟨path, -, rfl⟩ := hp
      exact sentState_cases sys path
  refine ⟨?_, fun r hmem => ⟨hrecv r hmem, (hlabel _ (hrecv r hmem)).2⟩, ?_⟩
  · intro lg root r hmem
    rw [PullIfClean_sends] at hmem
    simp only [List.mem_singleton] at hmem
    subst hmem
    exact sentState_cases sys root
  · intro text hmem
    have hrows : rows (main sys sched).trace = (received (main sys sched).trace).map rowText := by
      cases hr : sys.ReadDir (rootArg sys) with
      | error e =>
        rw [(main_panic sys sched e hr).2.1, (initLogger_fst sys).1, (initLogger_fst sys).2.1]
        rfl
      | ok entries => exact (main_ok sys sched entries hr).2.2.2.1
    rw [hrows] at hmem
    simp only [List.mem_map] at hmem
    obtain ⟨r, hr, rfl⟩ := hmem
    exact ⟨r.Path, RepositoryState.String r.State, rfl, hlabel _ (hrecv r hr)⟩

/-- Instance of C10 on the example system: the value received for `repoB`. -/
theorem main_no_fallback_witness :
    ({ Path := "/w/repoB", State := Skipped } : Result)
        ∈ received (main exampleSys firstReady).trace
      ∧ RepositoryState.String Skipped ≠ "?" :=
  ⟨by decide,
   ((main_no_fallback exampleSys firstReady).2.1 { Path := "/w/repoB", State := Skipped }
      (by decide)).2⟩

end Gp
